import Mathlib

/-!
Verification development for the Yonex catalog-monitoring repository.

The Python sources are embedded shallowly: pure helper functions become Lean
functions over `String` / `List Char`, the change-detection pipeline becomes a
pure function over snapshots represented as association lists, and the AI
size-analysis component is modelled with its network outcomes made explicit as
parameters.  Python `set` iteration order (which is unspecified) is modelled by
an explicit `shuffle` parameter that enumerates a list in an arbitrary
permuted order.
-/

namespace Yonex

/-! ## Python string primitives

These mirror the CPython semantics of the string operations used by the
sources, restricted to the ASCII range that the scraped data uses:
`str.lower` (via `Char.toLower`, which lowers exactly `A`–`Z`), `str.strip`
(which removes the whitespace characters from both ends), `str.startswith`,
`str.replace(pat, "")`, `in` (substring containment), `str.upper`,
`str.split("\n")` and `sep.join`. -/

/-- The characters `str.strip` removes (the ASCII part of Python whitespace). -/
def pySpace (c : Char) : Bool :=
  c.toNat = 32 ∨ c.toNat = 9 ∨ c.toNat = 10 ∨ c.toNat = 13 ∨ c.toNat = 11 ∨ c.toNat = 12

/-- `str.strip` on the character list: drop whitespace from the front, then
from the back (by reversing, dropping, and reversing again). -/
def pyStripList (l : List Char) : List Char :=
  ((l.dropWhile pySpace).reverse.dropWhile pySpace).reverse

/-- Python `str.strip()`. -/
def pyStrip (s : String) : String := String.mk (pyStripList s.data)

/-- Python `str.lower()` (ASCII case folding, as in the scraped data). -/
def pyLower (s : String) : String := String.mk (s.data.map Char.toLower)

/-- ASCII upper-casing of one character (inverse direction of `Char.toLower`). -/
def pyUpperChar (c : Char) : Char :=
  if 97 ≤ c.toNat ∧ c.toNat ≤ 122 then Char.ofNat (c.toNat - 32) else c

/-- Python `str.upper()` (ASCII case folding). -/
def pyUpper (s : String) : String := String.mk (s.data.map pyUpperChar)

/-- Python `str.startswith(pat)`. -/
def pyStartsWith (pat s : String) : Bool := pat.data.isPrefixOf s.data

/-- One step of Python `str.replace(pat, "")`: scan left to right, removing
each non-overlapping occurrence of `pat`.  The `fuel` argument (instantiated
with the length of the scanned list) keeps the recursion structural. -/
def pyRemoveAllAux (pat : List Char) : Nat → List Char → List Char
  | _, [] => []
  | 0, l => l
  | fuel + 1, c :: rest =>
    if pat.isPrefixOf (c :: rest) then
      pyRemoveAllAux pat fuel (List.drop pat.length (c :: rest))
    else
      c :: pyRemoveAllAux pat fuel rest

/-- Python `s.replace(pat, "")` (removal of every occurrence; with an empty
pattern and empty replacement CPython returns the string unchanged). -/
def pyRemoveAll (s pat : String) : String :=
  if pat.data.isEmpty then s
  else String.mk (pyRemoveAllAux pat.data s.data.length s.data)

/-- Substring containment on character lists (Python `pat in s`). -/
def listContainsSub (pat : List Char) : List Char → Bool
  | [] => pat.isEmpty
  | c :: rest => pat.isPrefixOf (c :: rest) || listContainsSub pat rest

/-- Python `pat in s` for strings. -/
def pyContains (s pat : String) : Bool := listContainsSub pat.data s.data

/-- Python `c in s` for a single character. -/
def pyContainsChar (s : String) (c : Char) : Bool := s.data.contains c

/-- Python `"\n".join`-style joining with a separator. -/
def pyJoin (sep : String) : List String → String
  | [] => ""
  | [x] => x
  | x :: xs => x ++ sep ++ pyJoin sep xs

/-- Split a character list at every newline. -/
def splitNlList : List Char → List (List Char)
  | [] => [[]]
  | '\n' :: rest => [] :: splitNlList rest
  | c :: rest =>
    match splitNlList rest with
    | h :: t => (c :: h) :: t
    | [] => [[c]]

/-- Python `s.split("\n")` (split on every single newline character). -/
def pySplitNl (s : String) : List String := (splitNlList s.data).map String.mk

/-- A string of `n` copies of `c` (Python `c * n`). -/
def pyRepeat (c : Char) (n : Nat) : String := String.mk (List.replicate n c)

/-! ## The identity normalizer (src/yonex_site_checker.py, `normalize_image_url`) -/

/-- `normalize_image_url` from src/yonex_site_checker.py lines 213-230: an
empty URL maps to the empty string; otherwise a known scheme+host prefix is
stripped via `str.replace`, a leading `/` is ensured, and the result is
lower-cased and stripped. -/
def normalizeImageUrl (url : String) : String :=
  if url = "" then ""
  else
    let url :=
      if pyStartsWith "https://www.yonex.ch" url then pyRemoveAll url "https://www.yonex.ch"
      else if pyStartsWith "http://www.yonex.ch" url then pyRemoveAll url "http://www.yonex.ch"
      else if pyStartsWith "//www.yonex.ch" url then pyRemoveAll url "//www.yonex.ch"
      else url
    let url := if pyStartsWith "/" url then url else "/" ++ url
    pyStrip (pyLower url)

/-! ## Durable product store (src/products_into_db.py, `store_products_from_dict`) -/

/-- A scraped product record as passed to `store_products_from_dict` (the
per-identity dictionaries built by the checker). -/
structure DbProd where
  name : String
  description : String
  original_description : Option String
  price : String
  sizes : Option String
deriving DecidableEq, Repr

/-- A row of the durable `products` table (surrogate id and timestamp
omitted; rows are kept in insertion order). -/
structure DbRow where
  name : String
  pic_url : String
  description : String
  price : String
  sizes : String
  ptype : String
deriving DecidableEq, Repr

/-- The placeholder `json.dumps(\x7b"available": [], "sold_out": [], "note":
"Size analysis pending"\x7d)` inserted when no size analysis was supplied. -/
def pendingSizesJson : String :=
  "\x7b\"available\": [], \"sold_out\": [], \"note\": \"Size analysis pending\"\x7d"

/-- `store_products_from_dict` from src/products_into_db.py lines 135-184,
acting on the durable table for one database: an empty dictionary returns
early (before the category delete); otherwise all rows of the category are
deleted and the dictionary's products are inserted in order. -/
def storeProductsFromDict (products : List (String × DbProd)) (categoryName : String)
    (table : List DbRow) : List DbRow :=
  if products.isEmpty then table
  else
    let cleared := table.filter (fun r => decide (r.ptype ≠ categoryName))
    cleared ++ products.map (fun kv =>
      let description := kv.2.original_description.getD kv.2.description
      let sizesJson := match kv.2.sizes with
        | some s => if s ≠ "" then s else pendingSizesJson
        | none => pendingSizesJson
      ⟨kv.2.name, kv.1, description, kv.2.price, sizesJson, categoryName⟩)

/-! ## Snapshot persistence (src/yonex_site_checker.py lines 389-392)

The checker persists the current snapshot with `open(history_file, "w")`
followed by `json.dump`.  Opening with mode `"w"` truncates the file in
place before any byte of the new contents is written, so the save consists
of two primitive file operations: truncate, then write.  `saveSnapshotFile`
returns the file contents (`none` = file absent) after the first `steps`
primitive operations have completed; an interruption partway through the
save corresponds to `steps < 2`. -/
def saveSnapshotFile (newContents : String) (oldFile : Option String) : Nat → Option String
  | 0 => oldFile
  | 1 => some ""
  | _ + 2 => some newContents

/-! ## A model of Python json.loads (src/talk_to_ai.py uses it to recover
the oracle's JSON reply)

The grammar is the JSON standard as implemented by CPython's strict
`json.loads`: one value, optionally surrounded by whitespace, with nothing
after it.  Numbers are kept as their lexemes (their numeric value is never
consumed by this program), and the `\uXXXX` escape is mapped through
`Char.ofNat`.  Parsing uses explicit fuel so every definition stays
structurally recursive and kernel-reducible. -/

/-- The opening brace character (written via its code point). -/
def lbrace : Char := Char.ofNat 123

/-- The closing brace character (written via its code point). -/
def rbrace : Char := Char.ofNat 125

inductive JsonValue where
  | null
  | bool (b : Bool)
  | num (lexeme : String)
  | str (s : String)
  | arr (elems : List JsonValue)
  | obj (members : List (String × JsonValue))

/-- JSON insignificant whitespace. -/
def jsonWs (c : Char) : Bool := c = ' ' ∨ c = '\t' ∨ c = '\n' ∨ c = '\r'

/-- Skip insignificant whitespace. -/
def skipWs (l : List Char) : List Char := l.dropWhile jsonWs

/-- Value of one hexadecimal digit. -/
def hexVal (c : Char) : Option Nat :=
  if '0' ≤ c ∧ c ≤ '9' then some (c.toNat - 48)
  else if 'a' ≤ c ∧ c ≤ 'f' then some (c.toNat - 87)
  else if 'A' ≤ c ∧ c ≤ 'F' then some (c.toNat - 55)
  else none

/-- Map a JSON escape character to the character it denotes. -/
def escChar (c : Char) : Option Char :=
  if c = '"' then some '"'
  else if c = '\\' then some '\\'
  else if c = '/' then some '/'
  else if c = 'b' then some (Char.ofNat 8)
  else if c = 'f' then some (Char.ofNat 12)
  else if c = 'n' then some '\n'
  else if c = 'r' then some '\r'
  else if c = 't' then some '\t'
  else none

/-- Parse the body of a JSON string (after the opening quote), returning its
characters and the input following the closing quote.  Unescaped control
characters are rejected, as in strict `json.loads`. -/
def parseStringBody : List Char → Option (List Char × List Char)
  | [] => none
  | '"' :: rest => some ([], rest)
  | '\\' :: 'u' :: h1 :: h2 :: h3 :: h4 :: rest =>
    match hexVal h1, hexVal h2, hexVal h3, hexVal h4 with
    | some a, some b, some c, some d =>
      (parseStringBody rest).map
        (fun p => (Char.ofNat (a * 4096 + b * 256 + c * 16 + d) :: p.1, p.2))
    | _, _, _, _ => none
  | '\\' :: e :: rest =>
    match escChar e with
    | some c => (parseStringBody rest).map (fun p => (c :: p.1, p.2))
    | none => none
  | c :: rest =>
    if c.toNat < 32 then none
    else (parseStringBody rest).map (fun p => (c :: p.1, p.2))

/-- Lex a JSON number starting at the head of the input, returning its
lexeme and the remaining input. -/
def parseNumberLex (l : List Char) : Option (List Char × List Char) :=
  let (neg, l1) := match l with
    | '-' :: r => (['-'], r)
    | _ => (([] : List Char), l)
  match l1 with
  | '0' :: r => some (neg ++ ['0'], r) |>.map (fun p => numFrac p.1 p.2)
  | c :: _ =>
    if '1' ≤ c ∧ c ≤ '9' then
      let ds := l1.takeWhile Char.isDigit
      some (numFrac (neg ++ ds) (l1.dropWhile Char.isDigit))
    else none
  | [] => none
where
  /-- Continue with the optional fraction part. -/
  numFrac (acc rest : List Char) : List Char × List Char :=
    match rest with
    | '.' :: r2 =>
      let ds := r2.takeWhile Char.isDigit
      if ds.isEmpty then (acc, rest)
      else numExp (acc ++ '.' :: ds) (r2.dropWhile Char.isDigit)
    | _ => numExp acc rest
  /-- Continue with the optional exponent part. -/
  numExp (acc rest : List Char) : List Char × List Char :=
    match rest with
    | 'e' :: r2 => numExpTail acc 'e' r2 rest
    | 'E' :: r2 => numExpTail acc 'E' r2 rest
    | _ => (acc, rest)
  /-- The sign and digits of an exponent. -/
  numExpTail (acc : List Char) (e : Char) (r2 orig : List Char) : List Char × List Char :=
    let (sgn, r3) := match r2 with
      | '+' :: r => (['+'], r)
      | '-' :: r => (['-'], r)
      | _ => (([] : List Char), r2)
    let ds := r3.takeWhile Char.isDigit
    if ds.isEmpty then (acc, orig)
    else (acc ++ e :: sgn ++ ds, r3.dropWhile Char.isDigit)

/-- Replace the value stored at the first occurrence of a key. -/
def updateAssoc : List (String × JsonValue) → String → JsonValue → List (String × JsonValue)
  | [], _, _ => []
  | (k1, v1) :: t, k, v => if k1 = k then (k1, v) :: t else (k1, v1) :: updateAssoc t k v

/-- Build a Python dict from parsed members: a duplicate key keeps its first
position but takes its last value. -/
def pyDictOfPairs (ps : List (String × JsonValue)) : List (String × JsonValue) :=
  ps.foldl
    (fun acc kv =>
      if (acc.map Prod.fst).contains kv.1 then updateAssoc acc kv.1 kv.2
      else acc ++ [kv])
    []

mutual

/-- Parse one JSON value at the head of the input (after optional
whitespace). -/
def parseVal : Nat → List Char → Option (JsonValue × List Char)
  | 0, _ => none
  | fuel + 1, l =>
    match skipWs l with
    | 'n' :: rest =>
      if ['u', 'l', 'l'].isPrefixOf rest then some (.null, rest.drop 3) else none
    | 't' :: rest =>
      if ['r', 'u', 'e'].isPrefixOf rest then some (.bool true, rest.drop 3) else none
    | 'f' :: rest =>
      if ['a', 'l', 's', 'e'].isPrefixOf rest then some (.bool false, rest.drop 4) else none
    | '"' :: rest => (parseStringBody rest).map (fun p => (.str (String.mk p.1), p.2))
    | c :: rest =>
      if c = '[' then
        match skipWs rest with
        | ']' :: r2 => some (.arr [], r2)
        | r2 => (parseArrElems fuel r2).map (fun p => (.arr p.1, p.2))
      else if c = lbrace then
        match skipWs rest with
        | r2 =>
          if r2.head? = some rbrace then some (.obj [], r2.drop 1)
          else (parseObjMembers fuel r2).map (fun p => (.obj (pyDictOfPairs p.1), p.2))
      else if c = '-' ∨ c.isDigit then
        (parseNumberLex (c :: rest)).map (fun p => (.num (String.mk p.1), p.2))
      else none
    | [] => none

/-- Parse a non-empty comma-separated element list followed by `]`. -/
def parseArrElems : Nat → List Char → Option (List JsonValue × List Char)
  | 0, _ => none
  | fuel + 1, l =>
    match parseVal fuel l with
    | none => none
    | some (v, r) =>
      match skipWs r with
      | ',' :: r2 => (parseArrElems fuel r2).map (fun p => (v :: p.1, p.2))
      | ']' :: r2 => some ([v], r2)
      | _ => none

/-- Parse a non-empty comma-separated member list followed by the closing
brace. -/
def parseObjMembers : Nat → List Char → Option (List (String × JsonValue) × List Char)
  | 0, _ => none
  | fuel + 1, l =>
    match skipWs l with
    | '"' :: rest =>
      match parseStringBody rest with
      | none => none
      | some (k, r) =>
        match skipWs r with
        | ':' :: r2 =>
          match parseVal fuel r2 with
          | none => none
          | some (v, r3) =>
            match skipWs r3 with
            | ',' :: r4 =>
              (parseObjMembers fuel r4).map (fun p => ((String.mk k, v) :: p.1, p.2))
            | c :: r4 =>
              if c = rbrace then some ([(String.mk k, v)], r4) else none
            | [] => none
        | _ => none
    | _ => none

end

/-- The strict `json.loads`: a single value with only whitespace around it;
`none` models `json.JSONDecodeError`. -/
def jsonLoads (s : String) : Option JsonValue :=
  match parseVal (2 * s.length + 8) s.data with
  | some (v, rest) => if (skipWs rest).isEmpty then some v else none
  | none => none

/-! ## The oracle result model (src/talk_to_ai.py)

Every failure return site in `analyze_sizes`, `_send_to_gemini`,
`_send_to_qwen` and `_parse_json_response` builds the literal dictionary
`\x7b"available": [], "sold_out": [], "error": msg\x7d`; a successful parse
returns the parsed JSON object itself.  `AIResult` keeps the two shapes
apart, and the `getAvailable`/`getSoldOut` views mirror the callers'
`result.get("available", [])` accesses (the oracle contract makes both
fields arrays of strings). -/

structure SizeDict where
  available : List String
  sold_out : List String
  error : Option String
deriving DecidableEq, Repr

inductive AIResult where
  | fromJson (j : JsonValue)
  | lit (d : SizeDict)

/-- The literal error dictionary used by every failure return site. -/
def errDict (e : String) : SizeDict := ⟨[], [], some e⟩

/-- Association-list lookup inside a JSON object. -/
def jLookup : List (String × JsonValue) → String → Option JsonValue
  | [], _ => none
  | (k1, v1) :: t, k => if k1 = k then some v1 else jLookup t k

/-- The string elements of the array stored under `k` (the callers'
`result.get(k, [])`; the oracle contract makes these arrays of strings). -/
def jGetList (j : JsonValue) (k : String) : List String :=
  match j with
  | .obj ms =>
    match jLookup ms k with
    | some (.arr xs) =>
      xs.filterMap (fun x => match x with | .str s => some s | _ => none)
    | _ => []
  | _ => []

/-- `result.get("available", [])`. -/
def getAvailable : AIResult → List String
  | .fromJson j => jGetList j "available"
  | .lit d => d.available

/-- `result.get("sold_out", [])`. -/
def getSoldOut : AIResult → List String
  | .fromJson j => jGetList j "sold_out"
  | .lit d => d.sold_out

/-! ## `_parse_json_response` (src/talk_to_ai.py lines 248-271) -/

/-- The slice `t[t.find(lbrace) : t.rfind(rbrace) + 1]`: drop everything
before the first opening brace, then cut everything after the last closing
brace (via reverse).  When the last closing brace precedes the first opening
brace the slice is empty, exactly as in Python. -/
def braceSpan (l : List Char) : List Char :=
  ((l.dropWhile (fun c => decide (c ≠ lbrace))).reverse.dropWhile
    (fun c => decide (c ≠ rbrace))).reverse

/-- The brace-guarded extraction step of `_parse_json_response` (lines
260-271): if the text contains both braces, `json.loads` the substring from
the first opening brace to the last closing brace; any failure yields the
literal error dictionary.  The CPython decode-error text varies with the
input; the fixed representative message `"Expecting value"` stands in for
it. -/
def parseBracedJson (t2 : String) : AIResult :=
  if t2.data.contains lbrace && t2.data.contains rbrace then
    match jsonLoads (String.mk (braceSpan t2.data)) with
    | some j => .fromJson j
    | none => .lit (errDict "JSON parse error: Expecting value")
  else .lit (errDict "Invalid JSON response")

/-- `_parse_json_response`: strip, remove Markdown code fences, then run the
brace-guarded extraction. -/
def parseJsonResponse (responseText : String) : AIResult :=
  let t1 := pyStrip responseText
  parseBracedJson
    (if pyStartsWith "```" t1 then
      pyStrip (pyJoin "\n" ((pySplitNl t1).filter (fun ln => !(pyStartsWith "```" ln))))
    else t1)

/-! ## `analyze_sizes` and the provider retry loops (src/talk_to_ai.py)

One network attempt either yields the model's response text or raises an
exception whose `str` is `msg`.  The sequence of attempt outcomes is a
parameter `att` indexed by attempt number; the retry loops walk it exactly
as the `for attempt in range(max_retries)` loops do. -/

inductive OracleAttempt where
  | success (text : String)
  | failure (msg : String)

/-- The Gemini rate-limit test on the stringified exception (line 149). -/
def isRateLimitGemini (msg : String) : Bool :=
  pyContains msg "retryDelay" || pyContains msg "RESOURCE_EXHAUSTED" || pyContains msg "429"

/-- The Qwen rate-limit test on the stringified exception (line 230). -/
def isRateLimitQwen (msg : String) : Bool :=
  pyContains msg "429" || pyContains (pyLower msg) "rate"

/-- The retry loop of `_send_to_gemini` (lines 136-170): a successful
attempt's text goes through `_parse_json_response`; a rate-limited failure
retries while attempts remain and otherwise reports retry exhaustion; any
other exception propagates to the enclosing handler, which returns the
error dictionary carrying `str(e)`.  The unreachable fall-through return
after the loop is kept for fidelity. -/
def geminiLoop (att : Nat → OracleAttempt) : Nat → Nat → AIResult
  | _, 0 => .lit (errDict "Max retries exceeded")
  | i, remaining + 1 =>
    match att i with
    | .success t => parseJsonResponse t
    | .failure m =>
      if isRateLimitGemini m then
        if remaining > 0 then geminiLoop att (i + 1) remaining
        else .lit (errDict "Rate limited after 3 attempts")
      else .lit (errDict m)

/-- The retry loop of `_send_to_qwen` (lines 195-241), identical in shape to
the Gemini loop but with the Qwen rate-limit test. -/
def qwenLoop (att : Nat → OracleAttempt) : Nat → Nat → AIResult
  | _, 0 => .lit (errDict "Max retries exceeded")
  | i, remaining + 1 =>
    match att i with
    | .success t => parseJsonResponse t
    | .failure m =>
      if isRateLimitQwen m then
        if remaining > 0 then qwenLoop att (i + 1) remaining
        else .lit (errDict "Rate limited after 3 attempts")
      else .lit (errDict m)

/-- `_send_to_gemini` (lines 128-174). -/
def sendToGemini (geminiAvailable : Bool) (att : Nat → OracleAttempt) : AIResult :=
  if !geminiAvailable then
    .lit (errDict "Gemini not available (google-genai not installed)")
  else geminiLoop att 0 3

/-- `_send_to_qwen` (lines 177-245). -/
def sendToQwen (qwenKey : String) (att : Nat → OracleAttempt) : AIResult :=
  if qwenKey = "" then
    .lit (errDict "DASHSCOPE_API_KEY environment variable not set")
  else qwenLoop att 0 3

/-- `analyze_sizes` (lines 274-294): empty descriptions short-circuit, then
the configured provider is dispatched. -/
def analyzeSizes (provider : String) (geminiAvailable : Bool) (qwenKey : String)
    (att : Nat → OracleAttempt) (description : String) : AIResult :=
  if description = "" then .lit (errDict "No description provided")
  else if provider = "gemini" then sendToGemini geminiAvailable att
  else if provider = "qwen" then sendToQwen qwenKey att
  else .lit (errDict ("Unknown provider: " ++ provider))

/-! ## The change detector (src/yonex_site_checker.py lines 156-185 and
312-400)

A snapshot is the JSON-shaped mapping identity → record, kept as an
association list in insertion order.  Python iterates the key SETS
(`removed_images`, `added_images`, `common_images`), whose order is
unspecified; that order is modelled by the `shuffle : List String → List
String` parameter (a faithful instantiation enumerates each list in some
permuted order).  The oracle parameter stands for `analyze_sizes` with a
fixed provider configuration, and every invocation of it is recorded in a
call log (the descriptions passed, in call order).  The snapshot's `sizes`
bookkeeping fields written back into `current_products` are not modelled:
no claim reads them. -/

structure Entry where
  name : String
  image_url : String
  description : String
  original_description : Option String
  price : String
deriving DecidableEq, Repr

/-- The snapshot mapping identity → record. -/
abbrev Snapshot := List (String × Entry)

/-- The `size_analysis` dictionary built by `analyze_size_changes` (lines
156-185).  The four delta lists hold Python's `list(set difference)` — an
arbitrary enumeration of the set, hence shuffled below. -/
structure SizeAnalysis where
  old_sizes : AIResult
  new_sizes : AIResult
  newly_available : List String
  newly_sold_out : List String
  no_longer_available : List String
  no_longer_sold_out : List String
  has_size_changes : Bool

/-- A `modified` entry: the identity, both records, and the analysis
attached only on a description change. -/
structure Modification where
  image_url : String
  old : Entry
  new : Entry
  size_analysis : Option SizeAnalysis

/-- The `changes` dictionary of `analyze_product_changes`, plus the oracle
call log used to state the cost-control invariant. -/
structure ChangeRes where
  removed : List Entry
  added : List Entry
  modified : List Modification
  total_current : Nat
  total_previous : Nat
  callLog : List String

/-- Python `set(a) - set(b)` enumerated as a list (deduplicated, in `a`'s
order; the caller shuffles it to model set order). -/
def setDiffList (a b : List String) : List String :=
  a.dedup.filter (fun x => decide (x ∉ b))

/-- `analyze_size_changes` (lines 156-185): parse both descriptions
independently and take the four set differences; `has_size_changes` is the
truthiness of the union of the four difference sets. -/
def analyzeSizeChanges (oracle : String → AIResult) (shuffle : List String → List String)
    (oldDescription newDescription : String) : SizeAnalysis :=
  let old_sizes := oracle oldDescription
  let new_sizes := oracle newDescription
  let old_available := getAvailable old_sizes
  let new_available := getAvailable new_sizes
  let old_sold_out := getSoldOut old_sizes
  let new_sold_out := getSoldOut new_sizes
  let newly_available := setDiffList new_available old_available
  let newly_sold_out := setDiffList new_sold_out old_sold_out
  let no_longer_available := setDiffList old_available new_available
  let no_longer_sold_out := setDiffList old_sold_out new_sold_out
  { old_sizes := old_sizes
    new_sizes := new_sizes
    newly_available := shuffle newly_available
    newly_sold_out := shuffle newly_sold_out
    no_longer_available := shuffle no_longer_available
    no_longer_sold_out := shuffle no_longer_sold_out
    has_size_changes := !(newly_available.isEmpty && newly_sold_out.isEmpty
      && no_longer_available.isEmpty && no_longer_sold_out.isEmpty) }

/-- The keys of a snapshot. -/
def keysOf (s : Snapshot) : List String := s.map Prod.fst

/-- The loop over `common_images` (lines 335-363): for each common key,
compare name/description/price; on any difference emit a modification, and
on a description change additionally run `analyze_size_changes` on the
original descriptions (falling back to the normalized ones, as
`.get('original_description', ...)` does).  The second component is the
oracle call log. -/
def modLoop (oracle : String → AIResult) (shuffle : List String → List String)
    (previous current : Snapshot) : List String → List Modification × List String
  | [] => ([], [])
  | img :: rest =>
    let tailRes := modLoop oracle shuffle previous current rest
    match List.lookup img current, List.lookup img previous with
    | some c, some p =>
      if c.name ≠ p.name ∨ c.description ≠ p.description ∨ c.price ≠ p.price then
        if c.description ≠ p.description then
          let oldD := p.original_description.getD p.description
          let newD := c.original_description.getD c.description
          let sa := analyzeSizeChanges oracle shuffle oldD newD
          (⟨img, p, c, some sa⟩ :: tailRes.1, oldD :: newD :: tailRes.2)
        else
          (⟨img, p, c, none⟩ :: tailRes.1, tailRes.2)
      else tailRes
    | _, _ => tailRes

/-- The loop over `added_images` (lines 366-378): every added product enters
the `added` list; the oracle is invoked only when the original description
is present and non-empty.  The second component is the oracle call log. -/
def addedLoop (oracle : String → AIResult) (current : Snapshot) :
    List String → List Entry × List String
  | [] => ([], [])
  | img :: rest =>
    let tailRes := addedLoop oracle current rest
    match List.lookup img current with
    | some c =>
      if c.original_description.getD "" ≠ "" then
        (c :: tailRes.1, c.original_description.getD "" :: tailRes.2)
      else
        (c :: tailRes.1, tailRes.2)
    | none => tailRes

/-- The per-key decision of the `common_images` loop, used to state what the
modified sequence contains independently of iteration order. -/
def modFun (oracle : String → AIResult) (shuffle : List String → List String)
    (previous current : Snapshot) (img : String) : Option Modification :=
  match List.lookup img current, List.lookup img previous with
  | some c, some p =>
    if c.name ≠ p.name ∨ c.description ≠ p.description ∨ c.price ≠ p.price then
      if c.description ≠ p.description then
        some ⟨img, p, c, some (analyzeSizeChanges oracle shuffle
          (p.original_description.getD p.description)
          (c.original_description.getD c.description))⟩
      else some ⟨img, p, c, none⟩
    else none
  | _, _ => none

/-- `analyze_product_changes` (lines 312-400) on two given snapshots: the
key-set differences drive the removed/added/modified sequences, with
`shuffle` standing for Python's set iteration order. -/
def analyzeProductChanges (oracle : String → AIResult)
    (shuffle : List String → List String) (previous current : Snapshot) : ChangeRes :=
  let currentImages := keysOf current
  let previousImages := keysOf previous
  let removedImages := shuffle (previousImages.filter (fun k => decide (k ∉ currentImages)))
  let addedImages := shuffle (currentImages.filter (fun k => decide (k ∉ previousImages)))
  let commonImages := shuffle (currentImages.filter (fun k => decide (k ∈ previousImages)))
  let modRes := modLoop oracle shuffle previous current commonImages
  let addRes := addedLoop oracle current addedImages
  { removed := removedImages.filterMap (fun img => List.lookup img previous)
    added := addRes.1
    modified := modRes.1
    total_current := current.length
    total_previous := previous.length
    callLog := modRes.2 ++ addRes.2 }

/-! ## Concrete sample data for witnesses and counterexamples -/

/-- An oracle answering every description with an empty size set. -/
def oracleEmpty : String → AIResult := fun _ => .lit ⟨[], [], none⟩

/-- An oracle distinguishing the two sample descriptions. -/
def oracleTwo : String → AIResult := fun d =>
  if d = "Desc old" then .lit ⟨["40"], [], none⟩
  else .lit ⟨["40", "41"], ["42"], none⟩

def entryOldA : Entry := ⟨"prod a", "/a", "desc old", some "Desc old", "chf 10"⟩

def entryNewA : Entry := ⟨"prod a", "/a", "desc new", some "Desc new", "chf 10"⟩

def entryB : Entry := ⟨"prod b", "/b", "desc b", some "Desc b", "chf 20"⟩

def prevSnapA : Snapshot := [("/a", entryOldA)]

def currSnapA : Snapshot := [("/a", entryNewA)]

def prevSnapAB : Snapshot := [("/a", entryOldA), ("/b", entryB)]

/-! ## The two renderings of a change set (src/yonex_site_checker.py,
`send_notifications_for_changes` lines 402-517 and `log_changes` lines
583-695)

The notification body is the `"\n".join` of the `lines` list; the log text
is the concatenation of the strings passed to `f.write`.  Python's
`f"{some_list}"` interpolation of a list of strings is modelled by
`pyReprStrList`.  The timestamp is a parameter (both functions format
`datetime.now()` the same way). -/

/-- Python `repr` of a list of strings, as an f-string interpolates it. -/
def pyReprStrList (l : List String) : String :=
  "[" ++ pyJoin ", " (l.map (fun s => "\x27" ++ s ++ "\x27")) ++ "]"

/-- Render each element with its 1-based position (Python
`enumerate(xs, 1)`), concatenating the produced line blocks. -/
def enumMap (f : Nat → α → List String) : Nat → List α → List String
  | _, [] => []
  | i, x :: xs => f i x ++ enumMap f (i + 1) xs

/-- The per-product block of the notification's removed section. -/
def removedLinesNotif (i : Nat) (p : Entry) : List String :=
  ["REMOVED #" ++ toString i ++ ":",
   "  Name: " ++ p.name,
   "  Price: " ++ p.price,
   "  Image URL: " ++ p.image_url,
   "  Description: " ++ p.description,
   pyRepeat '-' 30]

/-- The per-product block of the notification's added section. -/
def addedLinesNotif (i : Nat) (p : Entry) : List String :=
  ["NEW #" ++ toString i ++ ":",
   "  Name: " ++ p.name,
   "  Price: " ++ p.price,
   "  Image URL: " ++ p.image_url,
   "  Description: " ++ p.description,
   pyRepeat '-' 30]

/-- The size-analysis lines shared verbatim by both renderings (the two
functions emit the same text here, the log merely adding newlines). -/
def sizeLines (sa : SizeAnalysis) : List String :=
  if sa.has_size_changes then
    ["  🧠 SIZE CHANGES DETECTED:"]
    ++ (if sa.newly_available.isEmpty then [] else
        ["     ✅ Newly Available: " ++ pyReprStrList sa.newly_available])
    ++ (if sa.newly_sold_out.isEmpty then [] else
        ["     ❌ Newly Sold Out: " ++ pyReprStrList sa.newly_sold_out])
    ++ (if sa.no_longer_available.isEmpty then [] else
        ["     ⚠️ No Longer Available: " ++ pyReprStrList sa.no_longer_available])
    ++ (if sa.no_longer_sold_out.isEmpty then [] else
        ["     🔄 No Longer Sold Out: " ++ pyReprStrList sa.no_longer_sold_out])
    ++ ["     OLD Sizes - Available: " ++ pyReprStrList (getAvailable sa.old_sizes),
        "     OLD Sizes - Sold Out: " ++ pyReprStrList (getSoldOut sa.old_sizes),
        "     NEW Sizes - Available: " ++ pyReprStrList (getAvailable sa.new_sizes),
        "     NEW Sizes - Sold Out: " ++ pyReprStrList (getSoldOut sa.new_sizes)]
  else ["  ✅ Size availability unchanged"]

/-- The per-modification block of the notification. -/
def modLinesNotif (i : Nat) (m : Modification) : List String :=
  ("MODIFIED #" ++ toString i ++ " - Image: " ++ m.image_url) ::
  ((if m.old.name ≠ m.new.name then
      ["  ❌ NAME CHANGED:", "     OLD: " ++ m.old.name, "     NEW: " ++ m.new.name]
    else ["  ✅ Name (unchanged): " ++ m.new.name])
  ++ (if m.old.price ≠ m.new.price then
      ["  ❌ PRICE CHANGED:", "     OLD: " ++ m.old.price, "     NEW: " ++ m.new.price]
    else ["  ✅ Price (unchanged): " ++ m.new.price])
  ++ (if m.old.description ≠ m.new.description then
      ["  ❌ DESCRIPTION CHANGED:", "     OLD: " ++ m.old.description,
       "     NEW: " ++ m.new.description]
    else ["  ✅ Description (unchanged): "
        ++ String.mk (m.new.description.data.take 100) ++ "..."])
  ++ (match m.size_analysis with
      | none => []
      | some sa => sizeLines sa)
  ++ ["  ✅ Image URL: " ++ m.new.image_url, pyRepeat '-' 30])

/-- The `lines` list built by `send_notifications_for_changes`. -/
def notifBodyLines (c : ChangeRes) (siteName ts : String) : List String :=
  [pyRepeat '=' 50,
   "PRODUCT CHANGES DETECTED - " ++ pyUpper siteName,
   "Timestamp: " ++ ts,
   "Total Products: " ++ toString c.total_previous ++ " → " ++ toString c.total_current,
   pyRepeat '=' 50]
  ++ (if c.removed.isEmpty then [] else
      ("\n🗑️  REMOVED PRODUCTS (" ++ toString c.removed.length ++ "):")
        :: pyRepeat '-' 40 :: enumMap removedLinesNotif 1 c.removed)
  ++ (if c.added.isEmpty then [] else
      ("\n🆕 NEW PRODUCTS (" ++ toString c.added.length ++ "):")
        :: pyRepeat '-' 40 :: enumMap addedLinesNotif 1 c.added)
  ++ (if c.modified.isEmpty then [] else
      ("\n🔄 MODIFIED PRODUCTS (" ++ toString c.modified.length ++ "):")
        :: pyRepeat '-' 40 :: enumMap modLinesNotif 1 c.modified)
  ++ ["\nEnd of changes for " ++ siteName ++ " at " ++ ts,
      pyRepeat '=' 50]

/-- The full notification body: `"\n".join(lines)`. -/
def renderNotificationBody (c : ChangeRes) (siteName ts : String) : String :=
  pyJoin "\n" (notifBodyLines c siteName ts)

/-- The per-product chunks written by `log_changes` for a removed product. -/
def removedChunksLog (i : Nat) (p : Entry) : List String :=
  ["REMOVED #" ++ toString i ++ ":\n",
   "  Name: " ++ p.name ++ "\n",
   "  Price: " ++ p.price ++ "\n",
   "  Image URL: " ++ p.image_url ++ "\n",
   "  Description: " ++ p.description ++ "\n",
   pyRepeat '-' 40 ++ "\n"]

/-- The per-product chunks written by `log_changes` for an added product. -/
def addedChunksLog (i : Nat) (p : Entry) : List String :=
  ["NEW #" ++ toString i ++ ":\n",
   "  Name: " ++ p.name ++ "\n",
   "  Price: " ++ p.price ++ "\n",
   "  Image URL: " ++ p.image_url ++ "\n",
   "  Description: " ++ p.description ++ "\n",
   pyRepeat '-' 40 ++ "\n"]

/-- The per-modification chunks written by `log_changes`. -/
def modChunksLog (i : Nat) (m : Modification) : List String :=
  ("MODIFIED #" ++ toString i ++ " - Image: " ++ m.image_url ++ "\n") ::
  ((if m.old.name ≠ m.new.name then
      ["  ❌ NAME CHANGED:\n", "     OLD: " ++ m.old.name ++ "\n",
       "     NEW: " ++ m.new.name ++ "\n"]
    else ["  ✅ Name (unchanged): " ++ m.new.name ++ "\n"])
  ++ (if m.old.price ≠ m.new.price then
      ["  ❌ PRICE CHANGED:\n", "     OLD: " ++ m.old.price ++ "\n",
       "     NEW: " ++ m.new.price ++ "\n"]
    else ["  ✅ Price (unchanged): " ++ m.new.price ++ "\n"])
  ++ (if m.old.description ≠ m.new.description then
      ["  ❌ DESCRIPTION CHANGED:\n", "     OLD: " ++ m.old.description ++ "\n",
       "     NEW: " ++ m.new.description ++ "\n"]
    else ["  ✅ Description (unchanged): "
        ++ String.mk (m.new.description.data.take 100) ++ "...\n"])
  ++ (match m.size_analysis with
      | none => []
      | some sa => (sizeLines sa).map (fun ln => ln ++ "\n"))
  ++ ["  ✅ Image URL: " ++ m.new.image_url ++ "\n", pyRepeat '-' 40 ++ "\n"])

/-- The chunks written by `log_changes`, in write order. -/
def logChunks (c : ChangeRes) (siteName ts : String) : List String :=
  ["\n" ++ pyRepeat '=' 80 ++ "\n",
   "PRODUCT CHANGES DETECTED - " ++ pyUpper siteName ++ "\n",
   "Timestamp: " ++ ts ++ "\n",
   "Total Products: " ++ toString c.total_previous ++ " → "
     ++ toString c.total_current ++ "\n",
   pyRepeat '=' 80 ++ "\n"]
  ++ (if c.removed.isEmpty then [] else
      ("\n🗑️  REMOVED PRODUCTS (" ++ toString c.removed.length ++ "):\n")
        :: (pyRepeat '-' 60 ++ "\n") :: enumMap removedChunksLog 1 c.removed)
  ++ (if c.added.isEmpty then [] else
      ("\n🆕 NEW PRODUCTS (" ++ toString c.added.length ++ "):\n")
        :: (pyRepeat '-' 60 ++ "\n") :: enumMap addedChunksLog 1 c.added)
  ++ (if c.modified.isEmpty then [] else
      ("\n🔄 MODIFIED PRODUCTS (" ++ toString c.modified.length ++ "):\n")
        :: (pyRepeat '-' 60 ++ "\n") :: enumMap modChunksLog 1 c.modified)
  ++ ["\nEnd of changes for " ++ siteName ++ " at " ++ ts ++ "\n",
      pyRepeat '=' 80 ++ "\n"]

/-- The text appended to the master log file. -/
def renderLogText (c : ChangeRes) (siteName ts : String) : String :=
  String.join (logChunks c siteName ts)

/-- A concrete change set with one removed product. -/
def changesOneRemoved : ChangeRes := ⟨[entryOldA], [], [], 0, 1, []⟩

/-! ## Character-level lemmas for the normalizers -/

theorem char_toNat_ofNat_of_valid {n : Nat} (h : n < 55296) : (Char.ofNat n).toNat = n := by
  have hv : n.isValidChar := Or.inl h
  simp [Char.ofNat, hv, Char.ofNatAux, Char.toNat, UInt32.ofNat', UInt32.toNat]

theorem char_ext_toNat {a b : Char} (h : a.toNat = b.toNat) : a = b := by
  apply Char.ext
  apply UInt32.ext
  exact h

theorem toLower_toNat (c : Char) :
    (Char.toLower c).toNat = if 65 ≤ c.toNat ∧ c.toNat ≤ 90 then c.toNat + 32 else c.toNat := by
  simp only [Char.toLower]
  split
  case isTrue h =>
    apply char_toNat_ofNat_of_valid
    omega
  case isFalse h => rfl

theorem toLower_toLower (c : Char) : Char.toLower (Char.toLower c) = Char.toLower c := by
  apply char_ext_toNat
  rw [toLower_toNat, toLower_toNat c]
  split_ifs <;> omega

theorem pySpace_toLower (c : Char) : pySpace (Char.toLower c) = pySpace c := by
  simp only [pySpace]
  rw [decide_eq_decide, toLower_toNat]
  split
  case isTrue h => constructor <;> (intro hx ; omega)
  case isFalse h => exact Iff.rfl

/-! ## List-level lemmas for strip/lower -/

theorem dropWhile_dropWhile (p : α → Bool) (l : List α) :
    List.dropWhile p (List.dropWhile p l) = List.dropWhile p l := by
  induction l with
  | nil => rfl
  | cons a t ih =>
    by_cases h : p a
    · simp [List.dropWhile_cons, h, ih]
    · simp [List.dropWhile_cons, h]

theorem map_toLower_idem (l : List Char) :
    (l.map Char.toLower).map Char.toLower = l.map Char.toLower := by
  rw [List.map_map]
  apply List.map_congr_left
  intro a _
  exact toLower_toLower a

theorem dropWhile_pySpace_map_toLower (l : List Char) :
    List.dropWhile pySpace (l.map Char.toLower) = (List.dropWhile pySpace l).map Char.toLower := by
  have hcomp : pySpace ∘ Char.toLower = pySpace := funext pySpace_toLower
  rw [List.dropWhile_map, hcomp]

theorem pyStripList_map_toLower (l : List Char) :
    pyStripList (l.map Char.toLower) = (pyStripList l).map Char.toLower := by
  unfold pyStripList
  rw [dropWhile_pySpace_map_toLower, ← List.map_reverse, dropWhile_pySpace_map_toLower,
    ← List.map_reverse]

theorem dropWhile_head_false {p : α → Bool} {l : List α} {x : α}
    (h : (List.dropWhile p l).head? = some x) : p x = false := by
  induction l with
  | nil => simp [List.dropWhile] at h
  | cons a t ih =>
    rw [List.dropWhile_cons] at h
    by_cases hp : p a
    · rw [if_pos hp] at h
      exact ih h
    · rw [if_neg hp] at h
      simp only [List.head?_cons, Option.some.injEq] at h
      subst h
      simpa using hp

theorem dropWhile_eq_self_of_head {p : α → Bool} {l : List α}
    (h : ∀ x, l.head? = some x → p x = false) : List.dropWhile p l = l := by
  cases l with
  | nil => rfl
  | cons a t =>
    rw [List.dropWhile_cons, h a rfl]
    simp

theorem dropWhile_getLast? {p : α → Bool} {l : List α} (h : List.dropWhile p l ≠ []) :
    (List.dropWhile p l).getLast? = l.getLast? := by
  rcases (List.dropWhile_suffix p : List.dropWhile p l <:+ l) with ⟨t, ht⟩
  conv_rhs => rw [← ht]
  rw [List.getLast?_append]
  rcases hd : (List.dropWhile p l).getLast? with _ | x
  · rw [List.getLast?_eq_none_iff] at hd
    exact absurd hd h
  · rfl

theorem pyStripList_idem (l : List Char) : pyStripList (pyStripList l) = pyStripList l := by
  unfold pyStripList
  generalize hu : List.dropWhile pySpace l = u
  generalize hr : List.dropWhile pySpace u.reverse = r
  have h1 : List.dropWhile pySpace r.reverse = r.reverse := by
    apply dropWhile_eq_self_of_head
    intro x hx
    rw [List.head?_reverse] at hx
    have hrne : r ≠ [] := by
      intro h0
      rw [h0] at hx
      simp at hx
    have h2 : r.getLast? = u.reverse.getLast? := by
      rw [← hr]
      rw [← hr] at hrne
      exact dropWhile_getLast? hrne
    rw [h2, List.getLast?_eq_head?_reverse, List.reverse_reverse, ← hu] at hx
    exact dropWhile_head_false hx
  rw [h1, List.reverse_reverse]
  have h3 : List.dropWhile pySpace r = r := by
    rw [← hr]
    exact dropWhile_dropWhile pySpace u.reverse
  rw [h3]

theorem startsWith_ne_head {pat s : String} {a b : Char} {pd sd : List Char}
    (hp : pat.data = a :: pd) (hs : s.data = b :: sd) (hab : (a == b) = false) :
    pyStartsWith pat s = false := by
  unfold pyStartsWith
  rw [hp, hs]
  simp [List.isPrefixOf, hab]

theorem pyStripList_head_slash (t : List Char) :
    ∃ u, pyStripList ('/' :: t) = '/' :: u := by
  unfold pyStripList
  have hs : pySpace '/' = false := by decide
  rw [List.dropWhile_cons, hs]
  simp only [Bool.false_eq_true, if_false, List.reverse_cons]
  rw [List.dropWhile_append]
  split
  case isTrue h =>
    rw [List.dropWhile_cons, hs]
    simp only [Bool.false_eq_true, if_false, List.dropWhile_nil]
    exact ⟨[], by simp⟩
  case isFalse h =>
    exact ⟨(List.dropWhile pySpace t.reverse).reverse, by rw [List.reverse_append]; simp⟩

theorem slashLower_shape (u1 : String) :
    ∃ v, pyStrip (pyLower (if pyStartsWith "/" u1 then u1 else "/" ++ u1))
        = String.mk (pyStripList (('/' :: v).map Char.toLower)) := by
  by_cases hsl : pyStartsWith "/" u1 = true
  · rw [if_pos hsl]
    unfold pyStartsWith at hsl
    rcases hd : u1.data with _ | ⟨b, bs⟩
    · rw [hd] at hsl
      simp [List.isPrefixOf] at hsl
    · rw [hd] at hsl
      simp [List.isPrefixOf] at hsl
      refine ⟨bs, ?_⟩
      unfold pyStrip pyLower
      rw [hd, ← hsl]
  · rw [if_neg hsl]
    refine ⟨u1.data, ?_⟩
    unfold pyStrip pyLower
    have hd : ("/" ++ u1).data = '/' :: u1.data := by
      rw [String.data_append]
      rfl
    rw [hd]

theorem normalizeImageUrl_shape (url : String) (hu : url ≠ "") :
    ∃ v, normalizeImageUrl url = String.mk (pyStripList (('/' :: v).map Char.toLower)) := by
  unfold normalizeImageUrl
  rw [if_neg hu]
  exact slashLower_shape _

/-- C9 (counterexample): `normalize_identity` is not idempotent.  On the input
`"//WWW.YONEX.CH/a"` the first pass lower-cases the scheme-relative host
prefix without stripping it (the `startswith` checks are case-sensitive), and
the second pass then strips it, so applying the function twice differs from
applying it once. -/
theorem c9_counterexample :
    normalizeImageUrl (normalizeImageUrl "//WWW.YONEX.CH/a")
      ≠ normalizeImageUrl "//WWW.YONEX.CH/a" := by
  decide

/-- C9 (amended): `normalize_identity` is idempotent on every input whose
normalized form does not itself begin with the scheme-relative prefix
`"//www.yonex.ch"`; a second application changes the result only by stripping
such a prefix (which lower-casing can reveal, as in the counterexample). -/
theorem c9_normalize_identity_idempotent (url : String)
    (h : pyStartsWith "//www.yonex.ch" (normalizeImageUrl url) = false) :
    normalizeImageUrl (normalizeImageUrl url) = normalizeImageUrl url := by
  by_cases hu : url = ""
  · subst hu
    rfl
  · obtain ⟨v, hv⟩ := normalizeImageUrl_shape url hu
    set r := normalizeImageUrl url with hrdef
    have hmap : (('/' :: v).map Char.toLower) = '/' :: v.map Char.toLower := by
      rw [List.map_cons]
      rw [show Char.toLower '/' = '/' from by decide]
    obtain ⟨w, hw⟩ := pyStripList_head_slash (v.map Char.toLower)
    have hrdata : r.data = '/' :: w := by
      rw [hv]
      show pyStripList (('/' :: v).map Char.toLower) = _
      rw [hmap, hw]
    have hrne : r ≠ "" := by
      intro h0
      rw [h0] at hrdata
      simp at hrdata
    have hb1 : pyStartsWith "https://www.yonex.ch" r = false :=
      startsWith_ne_head rfl hrdata (by decide)
    have hb2 : pyStartsWith "http://www.yonex.ch" r = false :=
      startsWith_ne_head rfl hrdata (by decide)
    have hb4 : pyStartsWith "/" r = true := by
      unfold pyStartsWith
      rw [hrdata]
      simp [List.isPrefixOf]
    have hfix : pyStrip (pyLower r) = r := by
      apply String.ext
      show pyStripList (r.data.map Char.toLower) = r.data
      have hr0 : r.data = pyStripList (('/' :: v).map Char.toLower) := by
        rw [hv]
      rw [hr0, ← pyStripList_map_toLower, map_toLower_idem, pyStripList_idem]
    show normalizeImageUrl r = r
    unfold normalizeImageUrl
    rw [if_neg hrne]
    simp only [hb1, hb2, h, hb4, Bool.false_eq_true, if_false, if_true]
    exact hfix

/-- C9 (witness): the amended idempotence theorem applied at the concrete
input `"/x"`, whose normalized form does not begin with the scheme-relative
prefix. -/
theorem c9_witness :
    normalizeImageUrl (normalizeImageUrl "/x") = normalizeImageUrl "/x" :=
  c9_normalize_identity_idempotent "/x" (by decide)

/-- C10: storing products from an empty scraped dictionary returns early and
leaves the durable products table unchanged, for every category and every
table state — an empty scrape result never wipes previously stored rows. -/
theorem c10_empty_dict_preserves_table (categoryName : String) (table : List DbRow) :
    storeProductsFromDict [] categoryName table = table := rfl

/-- C6 (counterexample): a save that fails between the truncating open and
the completed write leaves the history file holding neither the old snapshot
nor the new one, so the replacement is not atomic from the consumer's point
of view. -/
theorem c6_counterexample :
    saveSnapshotFile "NEW" (some "OLD") 1 ≠ some "OLD" ∧
    saveSnapshotFile "NEW" (some "OLD") 1 ≠ some "NEW" := by
  decide

/-- C6 (amended): persisting the current snapshot is an in-place
truncate-then-write, not write-then-replace.  A completed save persists
exactly the new snapshot and a save that never starts leaves the old one
intact, but an interruption after the truncating `open(..., "w")` leaves the
history file empty, destroying the previously persisted snapshot. -/
theorem c6_save_is_in_place_truncate_then_write (newContents : String)
    (oldFile : Option String) (k : Nat) (hk : 2 ≤ k) :
    saveSnapshotFile newContents oldFile k = some newContents ∧
    saveSnapshotFile newContents oldFile 0 = oldFile ∧
    saveSnapshotFile newContents oldFile 1 = some "" := by
  refine ⟨?_, rfl, rfl⟩
  match k, hk with
  | n + 2, _ => rfl

/-- C6 (witness): the amended save characterization at a concrete save of
`"s"` over an absent previous file, with both primitive steps completed. -/
theorem c6_witness :
    saveSnapshotFile "s" none 2 = some "s" ∧
    saveSnapshotFile "s" none 0 = none ∧
    saveSnapshotFile "s" none 1 = some "" :=
  c6_save_is_in_place_truncate_then_write "s" none 2 (by decide)

/-! ## Lemmas on `_parse_json_response` and the retry loops -/

theorem append_ne_empty_left (s t : String) (hs : s ≠ "") : s ++ t ≠ "" := by
  intro h
  apply hs
  apply String.ext
  have hd := congrArg String.data h
  rw [String.data_append] at hd
  exact (List.append_eq_nil.mp hd).1

theorem parseBracedJson_cases (t2 : String) :
    (∃ j, parseBracedJson t2 = .fromJson j) ∨
    parseBracedJson t2 = .lit (errDict "JSON parse error: Expecting value") ∨
    parseBracedJson t2 = .lit (errDict "Invalid JSON response") := by
  unfold parseBracedJson
  by_cases hg : (t2.data.contains lbrace && t2.data.contains rbrace) = true
  · rw [if_pos hg]
    cases hj : jsonLoads (String.mk (braceSpan t2.data)) with
    | some j => exact Or.inl ⟨j, rfl⟩
    | none => exact Or.inr (Or.inl rfl)
  · rw [if_neg hg]
    exact Or.inr (Or.inr rfl)

theorem parseJsonResponse_cases (t : String) :
    (∃ j, parseJsonResponse t = .fromJson j) ∨
    parseJsonResponse t = .lit (errDict "JSON parse error: Expecting value") ∨
    parseJsonResponse t = .lit (errDict "Invalid JSON response") :=
  parseBracedJson_cases _

theorem geminiLoop_lit (att : Nat → OracleAttempt)
    (hmsg : ∀ i m, att i = .failure m → m ≠ "") :
    ∀ remaining i d, geminiLoop att i remaining = .lit d →
      d.available = [] ∧ d.sold_out = [] ∧ ∃ e, d.error = some e ∧ e ≠ "" := by
  intro remaining
  induction remaining with
  | zero =>
    intro i d h
    simp only [geminiLoop] at h
    injection h with h1
    subst h1
    exact ⟨rfl, rfl, _, rfl, by decide⟩
  | succ rem ih =>
    intro i d h
    simp only [geminiLoop] at h
    cases hatt : att i with
    | success t =>
      simp only [hatt] at h
      rcases parseJsonResponse_cases t with ⟨j, hj⟩ | hj | hj
      · rw [hj] at h
        exact AIResult.noConfusion h
      · rw [hj] at h
        injection h with h1
        subst h1
        exact ⟨rfl, rfl, _, rfl, by decide⟩
      · rw [hj] at h
        injection h with h1
        subst h1
        exact ⟨rfl, rfl, _, rfl, by decide⟩
    | failure m =>
      simp only [hatt] at h
      split at h
      · split at h
        · exact ih _ _ h
        · injection h with h1
          subst h1
          exact ⟨rfl, rfl, _, rfl, by decide⟩
      · injection h with h1
        subst h1
        exact ⟨rfl, rfl, _, rfl, hmsg i m hatt⟩

theorem qwenLoop_lit (att : Nat → OracleAttempt)
    (hmsg : ∀ i m, att i = .failure m → m ≠ "") :
    ∀ remaining i d, qwenLoop att i remaining = .lit d →
      d.available = [] ∧ d.sold_out = [] ∧ ∃ e, d.error = some e ∧ e ≠ "" := by
  intro remaining
  induction remaining with
  | zero =>
    intro i d h
    simp only [qwenLoop] at h
    injection h with h1
    subst h1
    exact ⟨rfl, rfl, _, rfl, by decide⟩
  | succ rem ih =>
    intro i d h
    simp only [qwenLoop] at h
    cases hatt : att i with
    | success t =>
      simp only [hatt] at h
      rcases parseJsonResponse_cases t with ⟨j, hj⟩ | hj | hj
      · rw [hj] at h
        exact AIResult.noConfusion h
      · rw [hj] at h
        injection h with h1
        subst h1
        exact ⟨rfl, rfl, _, rfl, by decide⟩
      · rw [hj] at h
        injection h with h1
        subst h1
        exact ⟨rfl, rfl, _, rfl, by decide⟩
    | failure m =>
      simp only [hatt] at h
      split at h
      · split at h
        · exact ih _ _ h
        · injection h with h1
          subst h1
          exact ⟨rfl, rfl, _, rfl, by decide⟩
      · injection h with h1
        subst h1
        exact ⟨rfl, rfl, _, rfl, hmsg i m hatt⟩

/-- C3 (counterexample): the size parser is total, but on the generic
oracle-error path the `error` field is `str(e)` verbatim; an exception whose
string form is empty therefore yields an empty `error` field, contradicting
the claim that every failure path carries a non-empty error string. -/
theorem c3_counterexample :
    analyzeSizes "gemini" true "key" (fun _ => .failure "") "Groessen 40, 41"
      = .lit ⟨[], [], some ""⟩ := rfl

/-- C3 (amended): the size parser is total by construction, and every
failure path (empty description, missing or malformed JSON, unknown
provider, rate-limit exhaustion, oracle error) returns the literal error
dictionary with both size sets empty and the `error` field set; that field
is non-empty provided the stringified oracle exceptions are non-empty — the
generic oracle-error path copies `str(e)` verbatim. -/
theorem c3_failure_paths_error_shape (provider : String) (ga : Bool) (qk : String)
    (att : Nat → OracleAttempt) (description : String)
    (hmsg : ∀ i m, att i = .failure m → m ≠ "")
    (d : SizeDict) (h : analyzeSizes provider ga qk att description = .lit d) :
    d.available = [] ∧ d.sold_out = [] ∧ ∃ e, d.error = some e ∧ e ≠ "" := by
  unfold analyzeSizes at h
  split at h
  · injection h with h1
    subst h1
    exact ⟨rfl, rfl, _, rfl, by decide⟩
  · split at h
    · unfold sendToGemini at h
      split at h
      · injection h with h1
        subst h1
        exact ⟨rfl, rfl, _, rfl, by decide⟩
      · exact geminiLoop_lit att hmsg 3 0 d h
    · split at h
      · unfold sendToQwen at h
        split at h
        · injection h with h1
          subst h1
          exact ⟨rfl, rfl, _, rfl, by decide⟩
        · exact qwenLoop_lit att hmsg 3 0 d h
      · injection h with h1
        subst h1
        refine ⟨rfl, rfl, _, rfl, ?_⟩
        exact append_ne_empty_left "Unknown provider: " provider (by decide)

/-! ## Lemmas on the two renderings -/

theorem pyJoin_head_of_ne (sep x : String) (xs : List String) (c : Char)
    (hx : x.data.head? = some c) :
    (pyJoin sep (x :: xs)).data.head? = some c := by
  obtain ⟨ys, hys⟩ := List.head?_eq_some_iff.mp hx
  cases xs with
  | nil => exact hx
  | cons y yt =>
    show ((x ++ sep ++ pyJoin sep (y :: yt))).data.head? = some c
    rw [String.data_append, String.data_append, hys]
    rfl

theorem foldl_append_data (l : List String) :
    ∀ a : String, ∃ t, (List.foldl (· ++ ·) a l).data = a.data ++ t := by
  induction l with
  | nil => exact fun a => ⟨[], (List.append_nil _).symm⟩
  | cons y ys ih =>
    intro a
    obtain ⟨t, ht⟩ := ih (a ++ y)
    refine ⟨y.data ++ t, ?_⟩
    rw [List.foldl_cons, ht, String.data_append, List.append_assoc]

theorem join_head_of_ne (x : String) (xs : List String) (c : Char)
    (hx : x.data.head? = some c) :
    (String.join (x :: xs)).data.head? = some c := by
  obtain ⟨ys, hys⟩ := List.head?_eq_some_iff.mp hx
  obtain ⟨t, ht⟩ := foldl_append_data xs ("" ++ x)
  show (List.foldl (· ++ ·) ("" ++ x) xs).data.head? = some c
  rw [ht, String.data_append, show ("" : String).data = [] from rfl, List.nil_append, hys]
  rfl

/-- C8 (counterexample): the text rendered for message delivery and the text
rendered for log persistence differ on a concrete change set with a single
removed product — the notification uses 50/40/30-character separators while
the log uses 80/60/40-character separators and a leading newline, so the two
views are not produced by one formatting function. -/
theorem c8_counterexample :
    renderNotificationBody changesOneRemoved "schuhe" "2025-01-01 00:00:00"
      ≠ renderLogText changesOneRemoved "schuhe" "2025-01-01 00:00:00" := by
  decide

/-- C8 (amended): the message-delivery text and the log text are produced by
two separate formatting routines that share the per-entry field lines but
differ in separator widths and in the log's leading newline; the two views
therefore always differ — for every change set, category and timestamp the
log text starts with a newline while the notification body starts with an
equals-sign rule. -/
theorem c8_two_renderings_always_differ (c : ChangeRes) (siteName ts : String) :
    renderNotificationBody c siteName ts ≠ renderLogText c siteName ts := by
  intro h
  have h1 : (renderNotificationBody c siteName ts).data.head? = some '=' := by
    simp only [renderNotificationBody, notifBodyLines, List.cons_append]
    exact pyJoin_head_of_ne "\n" _ _ '=' rfl
  have h2 : (renderLogText c siteName ts).data.head? = some '\n' := by
    simp only [renderLogText, logChunks, List.cons_append]
    exact join_head_of_ne _ _ '\n' rfl
  rw [h, h2] at h1
  simp at h1

/-! ## Lemmas for the brace-extraction step -/

theorem dropWhile_append_of_head {p : α → Bool} {l2 : List α} {a : α} {t : List α}
    (l1 : List α) (h2 : l2 = a :: t) (ha : p a = false) :
    List.dropWhile p (l1 ++ l2) = List.dropWhile p l1 ++ l2 := by
  rw [List.dropWhile_append]
  split
  case isTrue h =>
    rw [List.isEmpty_iff] at h
    rw [h, List.nil_append, h2, List.dropWhile_cons, ha]
    simp
  case isFalse h => rfl

theorem dropWhile_append_all {p : α → Bool} {l1 : List α} (l2 : List α)
    (h : ∀ x ∈ l1, p x = true) :
    List.dropWhile p (l1 ++ l2) = List.dropWhile p l2 := by
  rw [List.dropWhile_append]
  have he : List.dropWhile p l1 = [] := List.dropWhile_eq_nil_iff.mpr h
  rw [he]
  simp

theorem mem_dropWhile {p : α → Bool} {l : List α} {x : α}
    (h : x ∈ List.dropWhile p l) : x ∈ l :=
  List.IsSuffix.mem h (List.dropWhile_suffix p)

theorem braceSpan_strip_extract {pre body post bt bi : List Char}
    (hpre : lbrace ∉ pre) (hpost : rbrace ∉ post)
    (hb1 : body = lbrace :: bt) (hb2 : body = bi ++ [rbrace]) :
    braceSpan (pyStripList (pre ++ body ++ post)) = body ∧
    lbrace ∈ pyStripList (pre ++ body ++ post) ∧
    rbrace ∈ pyStripList (pre ++ body ++ post) := by
  have hpw_l : pySpace lbrace = false := by decide
  have hpw_r : pySpace rbrace = false := by decide
  have hbrev : body.reverse = rbrace :: bi.reverse := by
    rw [hb2, List.reverse_append]
    rfl
  -- shape of the stripped text: a whitespace-stripped prefix of `pre`,
  -- then `body` intact, then a whitespace-stripped suffix of `post`
  have hstrip : pyStripList (pre ++ body ++ post)
      = List.dropWhile pySpace pre ++ body
        ++ (List.dropWhile pySpace post.reverse).reverse := by
    unfold pyStripList
    rw [List.append_assoc,
      dropWhile_append_of_head pre (by rw [hb1, List.cons_append]) hpw_l,
      ← List.append_assoc, List.reverse_append, List.reverse_append,
      List.append_assoc,
      dropWhile_append_of_head post.reverse (by rw [hbrev, List.cons_append]) hpw_r,
      List.reverse_append, List.reverse_append, List.reverse_reverse,
      List.reverse_reverse, List.append_assoc]
  rw [hstrip]
  set A := List.dropWhile pySpace pre with hA
  set P := (List.dropWhile pySpace post.reverse).reverse with hP
  refine ⟨?_, ?_, ?_⟩
  · -- braceSpan cuts exactly `body` back out
    unfold braceSpan
    have d1 : List.dropWhile (fun c => decide (c ≠ lbrace)) (A ++ body ++ P)
        = body ++ P := by
      rw [List.append_assoc]
      rw [dropWhile_append_all (body ++ P) ?all]
      case all =>
        intro x hx
        have hxpre : x ∈ pre := mem_dropWhile hx
        simp only [decide_eq_true_eq]
        intro hxe
        exact hpre (hxe ▸ hxpre)
      rw [hb1, List.cons_append, List.dropWhile_cons]
      simp
    rw [d1, List.reverse_append]
    have d2 : List.dropWhile (fun c => decide (c ≠ rbrace)) (P.reverse ++ body.reverse)
        = body.reverse := by
      rw [dropWhile_append_all body.reverse ?allp]
      case allp =>
        intro x hx
        rw [List.reverse_reverse] at hx
        have hxpost : x ∈ post := List.mem_reverse.mp (mem_dropWhile hx)
        simp only [decide_eq_true_eq]
        intro hxe
        exact hpost (hxe ▸ hxpost)
      rw [hbrev, List.dropWhile_cons]
      simp
    rw [d2, List.reverse_reverse]
  · exact List.mem_append.mpr (Or.inl (List.mem_append.mpr (Or.inr (by
      rw [hb1]
      exact List.mem_cons_self _ _))))
  · exact List.mem_append.mpr (Or.inl (List.mem_append.mpr (Or.inr (by
      rw [hb2]
      exact List.mem_append.mpr (Or.inr (List.mem_singleton.mpr rfl))))))

/-- C7 (counterexample): the recovery step does not extract the first
balanced brace-delimited object.  The response below starts with the
well-formed object `(lbrace)"a": 1(rbrace)` — which `json.loads` accepts on
its own — but because a stray closing brace follows later, the code's
first-brace-to-last-brace slice is malformed and the whole response is
reported as a parse failure. -/
theorem c7_counterexample :
    parseJsonResponse "\x7b\"a\": 1\x7d x\x7d"
        = .lit (errDict "JSON parse error: Expecting value") ∧
    jsonLoads "\x7b\"a\": 1\x7d" = some (.obj [("a", .num "1")]) :=
  ⟨rfl, rfl⟩

/-- C7 (amended): the JSON recovery step extracts the substring from the
first opening brace to the LAST closing brace of the (fence-stripped)
response.  Prose before the first opening brace and after the last closing
brace is tolerated: whenever the response is `pre ++ body ++ post` with no
opening brace in `pre`, no closing brace in `post`, and `body` a
brace-delimited text accepted by `json.loads`, the parsed object is
returned.  A response with a later stray closing brace is NOT recovered via
its first balanced object (see the counterexample), and every response
without a well-formed object in the extracted span yields a parse-failure
SizeSet with a non-empty error, never a crash. -/
theorem c7_brace_extraction :
    (∀ (pre body post : String) (j : JsonValue),
      lbrace ∉ pre.data →
      rbrace ∉ post.data →
      pyStartsWith "```" (pyStrip (pre ++ body ++ post)) = false →
      body.data.head? = some lbrace →
      body.data.getLast? = some rbrace →
      jsonLoads body = some j →
      parseJsonResponse (pre ++ body ++ post) = .fromJson j) ∧
    (∀ t : String, (∃ j, parseJsonResponse t = .fromJson j) ∨
      ∃ e, parseJsonResponse t = .lit (errDict e) ∧ e ≠ "") := by
  constructor
  · intro pre body post j hpre hpost hfence hh hl hj
    obtain ⟨bt, hb1⟩ := List.head?_eq_some_iff.mp hh
    obtain ⟨bi, hb2⟩ := List.getLast?_eq_some_iff.mp hl
    have hdata : (pre ++ body ++ post).data = pre.data ++ body.data ++ post.data := by
      rw [String.data_append, String.data_append]
    have hex := braceSpan_strip_extract hpre hpost hb1 hb2
    have hstripdata : (pyStrip (pre ++ body ++ post)).data
        = pyStripList (pre.data ++ body.data ++ post.data) := by
      show pyStripList (pre ++ body ++ post).data = _
      rw [hdata]
    simp only [parseJsonResponse, hfence, Bool.false_eq_true, if_false]
    unfold parseBracedJson
    rw [if_pos ?guard]
    case guard =>
      rw [hstripdata]
      rw [Bool.and_eq_true]
      exact ⟨List.elem_iff.mpr hex.2.1, List.elem_iff.mpr hex.2.2⟩
    rw [hstripdata, hex.1]
    have hmk : String.mk body.data = body := rfl
    rw [hmk, hj]
  · intro t
    rcases parseJsonResponse_cases t with ⟨j, hj⟩ | hj | hj
    · exact Or.inl ⟨j, hj⟩
    · exact Or.inr ⟨_, hj, by decide⟩
    · exact Or.inr ⟨_, hj, by decide⟩

/-- C7 (witness): the amended extraction theorem applied to a concrete
response with prose on both sides of a well-formed object. -/
theorem c7_witness :
    parseJsonResponse ("ok " ++ "\x7b\"a\": 1\x7d" ++ " end")
        = .fromJson (.obj [("a", .num "1")]) :=
  c7_brace_extraction.1 "ok " "\x7b\"a\": 1\x7d" " end" (.obj [("a", .num "1")])
    (by decide) (by decide) (by decide) (by decide) (by decide) rfl

/-! ## Lemmas on the change detector -/

theorem lookup_mem_keys {img : String} {s : Snapshot} {c : Entry}
    (h : List.lookup img s = some c) : img ∈ keysOf s := by
  induction s with
  | nil => simp [List.lookup] at h
  | cons kv t ih =>
    rw [List.lookup] at h
    split at h
    · rename_i heq
      simp at heq
      simp [keysOf, heq]
    · simpa [keysOf] using Or.inr (ih h)

theorem perm_toFinset_eq {l₁ l₂ : List String} (h : l₁.Perm l₂) :
    l₁.toFinset = l₂.toFinset := by
  ext x
  simp only [List.mem_toFinset]
  exact h.mem_iff

theorem setDiffList_toFinset (a b : List String) :
    (setDiffList a b).toFinset = a.toFinset \ b.toFinset := by
  ext x
  simp [setDiffList, List.mem_dedup, List.mem_filter]

theorem perm_ne_nil_iff {shuffle : List String → List String}
    (hs : ∀ l : List String, (shuffle l).Perm l) (l : List String) :
    shuffle l ≠ [] ↔ l ≠ [] := by
  constructor
  · intro h hl
    subst hl
    exact h ((hs []).eq_nil)
  · intro h hl
    apply h
    exact (hl ▸ hs l : ([] : List String).Perm l).symm.eq_nil

theorem modLoop_self (oracle : String → AIResult) (shuffle : List String → List String)
    (S : Snapshot) : ∀ l, modLoop oracle shuffle S S l = ([], []) := by
  intro l
  induction l with
  | nil => rfl
  | cons img rest ih =>
    simp only [modLoop, ih]
    cases hc : List.lookup img S with
    | none => rfl
    | some c => simp

theorem isEmpty_false_iff (l : List String) : l.isEmpty = false ↔ l ≠ [] := by
  cases l <;> simp

theorem analyzeSizeChanges_spec (oracle : String → AIResult)
    (shuffle : List String → List String)
    (hs : ∀ l : List String, (shuffle l).Perm l) (oldD newD : String) :
    (analyzeSizeChanges oracle shuffle oldD newD).old_sizes = oracle oldD ∧
    (analyzeSizeChanges oracle shuffle oldD newD).new_sizes = oracle newD ∧
    (analyzeSizeChanges oracle shuffle oldD newD).newly_available.toFinset
      = (getAvailable ((analyzeSizeChanges oracle shuffle oldD newD).new_sizes)).toFinset
        \ (getAvailable ((analyzeSizeChanges oracle shuffle oldD newD).old_sizes)).toFinset ∧
    (analyzeSizeChanges oracle shuffle oldD newD).newly_sold_out.toFinset
      = (getSoldOut ((analyzeSizeChanges oracle shuffle oldD newD).new_sizes)).toFinset
        \ (getSoldOut ((analyzeSizeChanges oracle shuffle oldD newD).old_sizes)).toFinset ∧
    (analyzeSizeChanges oracle shuffle oldD newD).no_longer_available.toFinset
      = (getAvailable ((analyzeSizeChanges oracle shuffle oldD newD).old_sizes)).toFinset
        \ (getAvailable ((analyzeSizeChanges oracle shuffle oldD newD).new_sizes)).toFinset ∧
    (analyzeSizeChanges oracle shuffle oldD newD).no_longer_sold_out.toFinset
      = (getSoldOut ((analyzeSizeChanges oracle shuffle oldD newD).old_sizes)).toFinset
        \ (getSoldOut ((analyzeSizeChanges oracle shuffle oldD newD).new_sizes)).toFinset ∧
    ((analyzeSizeChanges oracle shuffle oldD newD).has_size_changes = true ↔
      ((analyzeSizeChanges oracle shuffle oldD newD).newly_available ≠ [] ∨
       (analyzeSizeChanges oracle shuffle oldD newD).newly_sold_out ≠ [] ∨
       (analyzeSizeChanges oracle shuffle oldD newD).no_longer_available ≠ [] ∨
       (analyzeSizeChanges oracle shuffle oldD newD).no_longer_sold_out ≠ [])) := by
  simp only [analyzeSizeChanges]
  refine ⟨trivial, trivial, ?_, ?_, ?_, ?_, ?_⟩
  · rw [perm_toFinset_eq (hs _), setDiffList_toFinset]
  · rw [perm_toFinset_eq (hs _), setDiffList_toFinset]
  · rw [perm_toFinset_eq (hs _), setDiffList_toFinset]
  · rw [perm_toFinset_eq (hs _), setDiffList_toFinset]
  · rw [perm_ne_nil_iff hs, perm_ne_nil_iff hs, perm_ne_nil_iff hs, perm_ne_nil_iff hs,
      Bool.not_eq_true']
    simp only [Bool.and_eq_false_iff, isEmpty_false_iff]
    tauto

theorem modLoop_mem (oracle : String → AIResult) (shuffle : List String → List String)
    (previous current : Snapshot) :
    ∀ (l : List String) (m : Modification), m ∈ (modLoop oracle shuffle previous current l).1 →
      List.lookup m.image_url current = some m.new ∧
      List.lookup m.image_url previous = some m.old ∧
      (m.new.description ≠ m.old.description →
        m.size_analysis = some (analyzeSizeChanges oracle shuffle
          (m.old.original_description.getD m.old.description)
          (m.new.original_description.getD m.new.description))) ∧
      (m.new.description = m.old.description → m.size_analysis = none) := by
  intro l
  induction l with
  | nil =>
    intro m hm
    simp [modLoop] at hm
  | cons img rest ih =>
    intro m hm
    simp only [modLoop] at hm
    cases hc : List.lookup img current <;> cases hp : List.lookup img previous <;>
      simp only [hc, hp] at hm
    case none.none => exact ih m hm
    case none.some => exact ih m hm
    case some.none => exact ih m hm
    case some.some c p =>
      split at hm
      case isTrue hcond =>
        split at hm
        case isTrue hdesc =>
          rcases List.mem_cons.mp hm with hme | hme
          · subst hme
            exact ⟨hc, hp, fun _ => rfl, fun heq => absurd heq hdesc⟩
          · exact ih m hme
        case isFalse hdesc =>
          rcases List.mem_cons.mp hm with hme | hme
          · subst hme
            exact ⟨hc, hp, fun hne => absurd (fun hx => hne hx) hdesc, fun _ => rfl⟩
          · exact ih m hme
      case isFalse hcond => exact ih m hm

/-- C1: for every modified entry whose normalized description changed, the
diff attaches a size delta obtained by parsing the original old and new
descriptions independently, whose four sets are exactly the set differences
of the two parses' available/sold-out sets, and whose `has_size_changes`
flag is true iff at least one of the four sets is non-empty. -/
theorem c1_size_delta_exact (oracle : String → AIResult)
    (shuffle : List String → List String)
    (hs : ∀ l : List String, (shuffle l).Perm l) (previous current : Snapshot)
    (m : Modification)
    (hm : m ∈ (analyzeProductChanges oracle shuffle previous current).modified)
    (hd : m.new.description ≠ m.old.description) :
    ∃ d, m.size_analysis = some d ∧
      d.old_sizes = oracle (m.old.original_description.getD m.old.description) ∧
      d.new_sizes = oracle (m.new.original_description.getD m.new.description) ∧
      d.newly_available.toFinset
        = (getAvailable d.new_sizes).toFinset \ (getAvailable d.old_sizes).toFinset ∧
      d.newly_sold_out.toFinset
        = (getSoldOut d.new_sizes).toFinset \ (getSoldOut d.old_sizes).toFinset ∧
      d.no_longer_available.toFinset
        = (getAvailable d.old_sizes).toFinset \ (getAvailable d.new_sizes).toFinset ∧
      d.no_longer_sold_out.toFinset
        = (getSoldOut d.old_sizes).toFinset \ (getSoldOut d.new_sizes).toFinset ∧
      (d.has_size_changes = true ↔
        (d.newly_available ≠ [] ∨ d.newly_sold_out ≠ [] ∨
         d.no_longer_available ≠ [] ∨ d.no_longer_sold_out ≠ [])) := by
  have hmem : m ∈ (modLoop oracle shuffle previous current
      (shuffle ((keysOf current).filter (fun k => decide (k ∈ keysOf previous))))).1 := hm
  obtain ⟨hlc, hlp, hattach, _⟩ := modLoop_mem oracle shuffle previous current _ m hmem
  have hsa := hattach hd
  obtain ⟨h1, h2, h3, h4, h5, h6, h7⟩ := analyzeSizeChanges_spec oracle shuffle hs
    (m.old.original_description.getD m.old.description)
    (m.new.original_description.getD m.new.description)
  exact ⟨_, hsa, h1, h2, h3, h4, h5, h6, h7⟩

/-- C1 (witness): the size-delta theorem at a concrete pair of snapshots
whose single common entry changed description, with a concrete oracle. -/
theorem c1_witness :
    (⟨"/a", entryOldA, entryNewA, some (analyzeSizeChanges oracleTwo id
        "Desc old" "Desc new")⟩ : Modification)
      ∈ (analyzeProductChanges oracleTwo id prevSnapA currSnapA).modified ∧
    ∃ d, (⟨"/a", entryOldA, entryNewA, some (analyzeSizeChanges oracleTwo id
        "Desc old" "Desc new")⟩ : Modification).size_analysis = some d ∧
      d.old_sizes = oracleTwo "Desc old" ∧
      d.new_sizes = oracleTwo "Desc new" ∧
      d.newly_available.toFinset
        = (getAvailable d.new_sizes).toFinset \ (getAvailable d.old_sizes).toFinset ∧
      d.newly_sold_out.toFinset
        = (getSoldOut d.new_sizes).toFinset \ (getSoldOut d.old_sizes).toFinset ∧
      d.no_longer_available.toFinset
        = (getAvailable d.old_sizes).toFinset \ (getAvailable d.new_sizes).toFinset ∧
      d.no_longer_sold_out.toFinset
        = (getSoldOut d.old_sizes).toFinset \ (getSoldOut d.new_sizes).toFinset ∧
      (d.has_size_changes = true ↔
        (d.newly_available ≠ [] ∨ d.newly_sold_out ≠ [] ∨
         d.no_longer_available ≠ [] ∨ d.no_longer_sold_out ≠ [])) := by
  have hm : (⟨"/a", entryOldA, entryNewA, some (analyzeSizeChanges oracleTwo id
      "Desc old" "Desc new")⟩ : Modification)
      ∈ (analyzeProductChanges oracleTwo id prevSnapA currSnapA).modified := by
    show _ ∈ [(⟨"/a", entryOldA, entryNewA, some (analyzeSizeChanges oracleTwo id
      "Desc old" "Desc new")⟩ : Modification)]
    exact List.mem_singleton.mpr rfl
  exact ⟨hm, c1_size_delta_exact oracleTwo id (fun l => List.Perm.refl l)
    prevSnapA currSnapA _ hm (by decide)⟩

theorem modLoop_log (oracle : String → AIResult) (shuffle : List String → List String)
    (previous current : Snapshot) :
    ∀ (l : List String) (dsc : String), dsc ∈ (modLoop oracle shuffle previous current l).2 →
      ∃ img c p, List.lookup img current = some c ∧ List.lookup img previous = some p ∧
        c.description ≠ p.description ∧
        (dsc = p.original_description.getD p.description ∨
         dsc = c.original_description.getD c.description) := by
  intro l
  induction l with
  | nil =>
    intro dsc h
    simp [modLoop] at h
  | cons img rest ih =>
    intro dsc h
    simp only [modLoop] at h
    cases hc : List.lookup img current <;> cases hp : List.lookup img previous <;>
      simp only [hc, hp] at h
    case none.none => exact ih dsc h
    case none.some => exact ih dsc h
    case some.none => exact ih dsc h
    case some.some c p =>
      split at h
      case isTrue hcond =>
        split at h
        case isTrue hdesc =>
          rcases List.mem_cons.mp h with he | he
          · exact ⟨img, c, p, hc, hp, hdesc, Or.inl he⟩
          · rcases List.mem_cons.mp he with he2 | he2
            · exact ⟨img, c, p, hc, hp, hdesc, Or.inr he2⟩
            · exact ih dsc he2
        case isFalse hdesc => exact ih dsc h
      case isFalse hcond => exact ih dsc h

theorem addedLoop_log (oracle : String → AIResult) (current : Snapshot) :
    ∀ (l : List String) (dsc : String), dsc ∈ (addedLoop oracle current l).2 →
      ∃ img c, img ∈ l ∧ List.lookup img current = some c ∧
        c.original_description = some dsc ∧ dsc ≠ "" := by
  intro l
  induction l with
  | nil =>
    intro dsc h
    simp [addedLoop] at h
  | cons img rest ih =>
    intro dsc h
    simp only [addedLoop] at h
    cases hc : List.lookup img current <;> simp only [hc] at h
    case none =>
      obtain ⟨i2, c2, hi, rest2⟩ := ih dsc h
      exact ⟨i2, c2, List.mem_cons_of_mem _ hi, rest2⟩
    case some c =>
      split at h
      case isTrue hne =>
        rcases List.mem_cons.mp h with he | he
        · refine ⟨img, c, List.mem_cons_self _ _, hc, ?_, ?_⟩
          · cases horig : c.original_description with
            | none =>
              rw [horig] at hne
              simp at hne
            | some s =>
              rw [horig] at he
              simp only [Option.getD_some] at he
              rw [he]
          · rw [he]
            exact hne
        · obtain ⟨i2, c2, hi, rest2⟩ := ih dsc he
          exact ⟨i2, c2, List.mem_cons_of_mem _ hi, rest2⟩
      case isFalse hne =>
        obtain ⟨i2, c2, hi, rest2⟩ := ih dsc h
        exact ⟨i2, c2, List.mem_cons_of_mem _ hi, rest2⟩

/-- C2: the diff invokes the size parser only where needed — every oracle
call carries either the non-empty original description of an added entry, or
one of the two original descriptions of a common entry whose normalized
description changed; and a common entry whose description is unchanged (for
example, a price-only or name-only change) gets no size delta attached. -/
theorem c2_oracle_calls_only_where_needed (oracle : String → AIResult)
    (shuffle : List String → List String)
    (hs : ∀ l : List String, (shuffle l).Perm l) (previous current : Snapshot) :
    (∀ dsc ∈ (analyzeProductChanges oracle shuffle previous current).callLog,
       (∃ img c, List.lookup img current = some c ∧ img ∉ keysOf previous ∧
          c.original_description = some dsc ∧ dsc ≠ "") ∨
       (∃ img c p, List.lookup img current = some c ∧
          List.lookup img previous = some p ∧ c.description ≠ p.description ∧
          (dsc = p.original_description.getD p.description ∨
           dsc = c.original_description.getD c.description))) ∧
    (∀ m ∈ (analyzeProductChanges oracle shuffle previous current).modified,
       m.old.description = m.new.description → m.size_analysis = none) := by
  constructor
  · intro dsc hdsc
    have hsplit : dsc ∈ (modLoop oracle shuffle previous current
        (shuffle ((keysOf current).filter (fun k => decide (k ∈ keysOf previous))))).2
        ++ (addedLoop oracle current
        (shuffle ((keysOf current).filter (fun k => decide (k ∉ keysOf previous))))).2 := hdsc
    rcases List.mem_append.mp hsplit with hmod | hadd
    · exact Or.inr (modLoop_log oracle shuffle previous current _ dsc hmod)
    · left
      obtain ⟨img, c, himg, hc, horig, hne⟩ := addedLoop_log oracle current _ dsc hadd
      have himg2 : img ∈ (keysOf current).filter (fun k => decide (k ∉ keysOf previous)) :=
        ((hs _).mem_iff).mp himg
      have hnotin : img ∉ keysOf previous := by
        have := (List.mem_filter.mp himg2).2
        simpa using this
      exact ⟨img, c, hc, hnotin, horig, hne⟩
  · intro m hm heq
    have hmem : m ∈ (modLoop oracle shuffle previous current
        (shuffle ((keysOf current).filter (fun k => decide (k ∈ keysOf previous))))).1 := hm
    obtain ⟨_, _, _, hnone⟩ := modLoop_mem oracle shuffle previous current _ m hmem
    exact hnone heq.symm

/-- C2 (witness): the call-log characterization applied to a concrete run
whose log contains the old original description of the modified entry. -/
theorem c2_witness :
    (∃ img c, List.lookup img currSnapA = some c ∧ img ∉ keysOf prevSnapA ∧
       c.original_description = some "Desc old" ∧ "Desc old" ≠ "") ∨
    (∃ img c p, List.lookup img currSnapA = some c ∧
       List.lookup img prevSnapA = some p ∧ c.description ≠ p.description ∧
       ("Desc old" = p.original_description.getD p.description ∨
        "Desc old" = c.original_description.getD c.description)) :=
  (c2_oracle_calls_only_where_needed oracleTwo id (fun l => List.Perm.refl l)
    prevSnapA currSnapA).1 "Desc old"
    (by
      show "Desc old" ∈ ["Desc old", "Desc new"]
      exact List.mem_cons_self _ _)

theorem addedLoop_fst (oracle : String → AIResult) (current : Snapshot) :
    ∀ l : List String, (addedLoop oracle current l).1
      = l.filterMap (fun img => List.lookup img current) := by
  intro l
  induction l with
  | nil => rfl
  | cons img rest ih =>
    simp only [addedLoop, List.filterMap_cons]
    cases hc : List.lookup img current <;> simp only [hc]
    case none => exact ih
    case some c => split <;> simp [ih]

theorem modLoop_fst (oracle : String → AIResult) (shuffle : List String → List String)
    (previous current : Snapshot) :
    ∀ l : List String, (modLoop oracle shuffle previous current l).1
      = l.filterMap (modFun oracle shuffle previous current) := by
  intro l
  induction l with
  | nil => rfl
  | cons img rest ih =>
    simp only [modLoop, List.filterMap_cons]
    cases hc : List.lookup img current <;> cases hp : List.lookup img previous <;>
      simp only [modFun, hc, hp]
    case none.none => exact ih
    case none.some => exact ih
    case some.none => exact ih
    case some.some c p =>
      by_cases hcond : (c.name ≠ p.name ∨ c.description ≠ p.description ∨ c.price ≠ p.price)
      · by_cases hdesc : c.description ≠ p.description
        · simp only [if_pos hcond, if_pos hdesc]
          simp [ih]
        · simp only [if_pos hcond, if_neg hdesc]
          simp [ih]
      · simp only [if_neg hcond]
        exact ih

/-- C4 (counterexample): the removed sequence is NOT sorted ascending by
identity string — it follows the iteration order of the underlying key set.
With the iteration order that enumerates the two removed keys as
`["/b", "/a"]` (a legitimate enumeration of the set), the output appears in
exactly that unsorted order. -/
theorem c4_counterexample :
    (analyzeProductChanges oracleEmpty List.reverse prevSnapAB []).removed.map
        (fun e => e.image_url) = ["/b", "/a"] ∧
    ¬ List.Sorted (fun a b : String => a.data < b.data)
      ((analyzeProductChanges oracleEmpty List.reverse prevSnapAB []).removed.map
        (fun e => e.image_url)) := by
  refine ⟨rfl, ?_⟩
  intro hsort
  rw [show ((analyzeProductChanges oracleEmpty List.reverse prevSnapAB []).removed.map
      (fun e => e.image_url)) = ["/b", "/a"] from rfl] at hsort
  have h := List.rel_of_sorted_cons hsort "/a" (by simp)
  exact absurd h (by decide)

/-- C4 (amended): the added, removed and modified sequences are not sorted
by identity; each is the canonical snapshot-order enumeration of the
corresponding key-set difference up to the iteration order of the
underlying Python sets (a permutation chosen by the runtime), so the output
order is deterministic only relative to that iteration order. -/
theorem c4_order_is_iteration_order (oracle : String → AIResult)
    (shuffle : List String → List String)
    (hs : ∀ l : List String, (shuffle l).Perm l) (previous current : Snapshot) :
    ((analyzeProductChanges oracle shuffle previous current).removed).Perm
      (((keysOf previous).filter (fun k => decide (k ∉ keysOf current))).filterMap
        (fun img => List.lookup img previous)) ∧
    ((analyzeProductChanges oracle shuffle previous current).added).Perm
      (((keysOf current).filter (fun k => decide (k ∉ keysOf previous))).filterMap
        (fun img => List.lookup img current)) ∧
    ((analyzeProductChanges oracle shuffle previous current).modified).Perm
      (((keysOf current).filter (fun k => decide (k ∈ keysOf previous))).filterMap
        (modFun oracle shuffle previous current)) := by
  refine ⟨?_, ?_, ?_⟩
  · exact List.Perm.filterMap _ (hs _)
  · rw [show (analyzeProductChanges oracle shuffle previous current).added
        = (addedLoop oracle current
          (shuffle ((keysOf current).filter (fun k => decide (k ∉ keysOf previous))))).1
      from rfl, addedLoop_fst]
    exact List.Perm.filterMap _ (hs _)
  · rw [show (analyzeProductChanges oracle shuffle previous current).modified
        = (modLoop oracle shuffle previous current
          (shuffle ((keysOf current).filter (fun k => decide (k ∈ keysOf previous))))).1
      from rfl, modLoop_fst]
    exact List.Perm.filterMap _ (hs _)

/-- C4 (witness): the iteration-order characterization applied with the
reversing iteration order to the concrete two-entry snapshot. -/
theorem c4_witness :
    ((analyzeProductChanges oracleEmpty List.reverse prevSnapAB []).removed).Perm
      (((keysOf prevSnapAB).filter (fun k => decide (k ∉ keysOf ([] : Snapshot)))).filterMap
        (fun img => List.lookup img prevSnapAB)) ∧
    ((analyzeProductChanges oracleEmpty List.reverse prevSnapAB []).added).Perm
      (((keysOf ([] : Snapshot)).filter (fun k => decide (k ∉ keysOf prevSnapAB))).filterMap
        (fun img => List.lookup img ([] : Snapshot))) ∧
    ((analyzeProductChanges oracleEmpty List.reverse prevSnapAB []).modified).Perm
      (((keysOf ([] : Snapshot)).filter (fun k => decide (k ∈ keysOf prevSnapAB))).filterMap
        (modFun oracleEmpty List.reverse prevSnapAB ([] : Snapshot))) :=
  c4_order_is_iteration_order oracleEmpty List.reverse
    (fun l => List.reverse_perm l) prevSnapAB []

/-- C5: diffing a snapshot against itself yields an empty ChangeSet — no
removed, added or modified entries (and no oracle calls) — for every
snapshot and every set iteration order. -/
theorem c5_diff_self_empty (oracle : String → AIResult)
    (shuffle : List String → List String)
    (hs : ∀ l : List String, (shuffle l).Perm l) (S : Snapshot) :
    (analyzeProductChanges oracle shuffle S S).removed = [] ∧
    (analyzeProductChanges oracle shuffle S S).added = [] ∧
    (analyzeProductChanges oracle shuffle S S).modified = [] ∧
    (analyzeProductChanges oracle shuffle S S).callLog = [] := by
  have hfil : (keysOf S).filter (fun k => decide (k ∉ keysOf S)) = [] := by
    rw [List.filter_eq_nil_iff]
    intro a ha
    simp [ha]
  have hnil : shuffle ((keysOf S).filter (fun k => decide (k ∉ keysOf S))) = [] := by
    rw [hfil]
    exact (hs []).eq_nil
  have hmod := modLoop_self oracle shuffle S
    (shuffle ((keysOf S).filter (fun k => decide (k ∈ keysOf S))))
  simp only [analyzeProductChanges, hnil, hmod]
  simp [addedLoop]

/-- C5 (witness): the self-diff theorem at a concrete one-entry snapshot
with the identity iteration order. -/
theorem c5_witness :
    (analyzeProductChanges oracleEmpty id prevSnapA prevSnapA).removed = [] ∧
    (analyzeProductChanges oracleEmpty id prevSnapA prevSnapA).added = [] ∧
    (analyzeProductChanges oracleEmpty id prevSnapA prevSnapA).modified = [] ∧
    (analyzeProductChanges oracleEmpty id prevSnapA prevSnapA).callLog = [] :=
  c5_diff_self_empty oracleEmpty id (fun l => List.Perm.refl l) prevSnapA

/-- C3 (witness): the amended failure-shape theorem applied to a concrete
oracle error with the non-empty exception string `"boom"`. -/
theorem c3_witness :
    (errDict "boom").available = [] ∧ (errDict "boom").sold_out = [] ∧
      ∃ e, (errDict "boom").error = some e ∧ e ≠ "" :=
  c3_failure_paths_error_shape "gemini" true "key" (fun _ => .failure "boom")
    "Groessen 40, 41"
    (fun _ m hm => by
      injection hm with h1
      rw [← h1]
      decide)
    (errDict "boom") rfl

end Yonex
